import Mathlib

/-!
Verification development for the cornea-topography OCR pipeline.

The embedding below follows the repository's three core components:
* the field-extraction parser `parseCorneaData` (v1 page),
* the region compositor `combineRegions` / `parseRegionResults` (v2 editor page),
* the full-page spatial attribution in the `/api/ocr` route handler.

JavaScript strings are modelled as Lean `String`/`List Char`; JS numbers that
only carry pixel coordinates are modelled as `Nat`/`ℚ` (the code never relies
on float rounding for the properties considered here); JS `undefined`/`null`
is modelled with `Option`.  The handful of JS regular expressions used by the
parser are embedded through a small backtracking matcher (`RE`, `matchRE`)
with the same greedy, leftmost-match semantics as the JS engine.
-/

/-- The set of characters matched by the JS regex class `\s` and removed by
`String.prototype.trim`. -/
def jsWhitespace (c : Char) : Bool :=
  c == ' ' || c == '\t' || c == '\n' || c == '\r' ||
  c.val == 0x0b || c.val == 0x0c || c.val == 0xa0 || c.val == 0x1680 ||
  (0x2000 ≤ c.val && c.val ≤ 0x200a) || c.val == 0x2028 || c.val == 0x2029 ||
  c.val == 0x202f || c.val == 0x205f || c.val == 0x3000 || c.val == 0xfeff

/-- `trim` on a character list: drop whitespace from both ends. -/
def trimChars (l : List Char) : List Char :=
  ((l.dropWhile jsWhitespace).reverse.dropWhile jsWhitespace).reverse

/-- JS `String.prototype.trim`. -/
def jsTrim (s : String) : String := String.mk (trimChars s.data)

/-- ASCII lower-casing, modelling `String.prototype.toLowerCase` on the
ASCII inputs this program deals with. -/
def jsToLower (s : String) : String := String.mk (s.data.map Char.toLower)

/-- Does `hay` start with `pat` (case-sensitive)? -/
def startsWithPlain : List Char → List Char → Bool
  | [], _ => true
  | _ :: _, [] => false
  | p :: ps, c :: cs => c == p && startsWithPlain ps cs

/-- Does `hay` start with the (pre-lowercased) pattern `pat`, comparing the
subject case-insensitively? -/
def startsWithCI : List Char → List Char → Bool
  | [], _ => true
  | _ :: _, [] => false
  | p :: ps, c :: cs => c.toLower == p && startsWithCI ps cs

/-- JS `String.prototype.includes`: `needle` occurs somewhere in the list. -/
def containsSub (needle : List Char) : List Char → Bool
  | [] => needle.isEmpty
  | c :: cs => startsWithPlain needle (c :: cs) || containsSub needle cs

/-- `s.includes(sub)`. -/
def strIncludes (s sub : String) : Bool := containsSub sub.data s.data

/-- JS `String.prototype.split` with a single-character separator. -/
def splitChar (sep : Char) : List Char → List (List Char)
  | [] => [[]]
  | c :: cs =>
    if c == sep then [] :: splitChar sep cs
    else
      match splitChar sep cs with
      | [] => [[c]]
      | h :: t => (c :: h) :: t

/-- JS `array.join(' ')`. -/
def joinSp : List String → String
  | [] => ""
  | [s] => s
  | s :: t :: rest => s ++ " " ++ joinSp (t :: rest)

/-- JS `array.join('\n')`. -/
def joinNl : List String → String
  | [] => ""
  | [s] => s
  | s :: t :: rest => s ++ "\n" ++ joinNl (t :: rest)

/-- Helper for `collapseWs`: the flag records whether the previous character
was whitespace (so a whole run is replaced by one space). -/
def collapseGo : Bool → List Char → List Char
  | _, [] => []
  | prevWs, c :: cs =>
    if jsWhitespace c then
      if prevWs then collapseGo true cs else ' ' :: collapseGo true cs
    else c :: collapseGo false cs

/-- JS `s.replace(/\s+/g, ' ')`: collapse every whitespace run to one space. -/
def collapseWs (s : String) : String := String.mk (collapseGo false s.data)

/-- JS `Array.prototype.findIndex` (returns `-1` when no element matches). -/
def jsFindIndexGo (p : α → Bool) : Nat → List α → Int
  | _, [] => -1
  | i, a :: as => if p a then (i : Int) else jsFindIndexGo p (i + 1) as

/-- `list.findIndex(p)` with JS's `-1` sentinel. -/
def jsFindIndex (p : α → Bool) (l : List α) : Int := jsFindIndexGo p 0 l

/-- JS `String.prototype.indexOf` for a single character, as an `Option`. -/
def idxOfGo (ch : Char) : Nat → List Char → Option Nat
  | _, [] => none
  | i, c :: cs => if c == ch then some i else idxOfGo ch (i + 1) cs

/-- First index of `ch` in `l`, if any. -/
def idxOfChar (ch : Char) (l : List Char) : Option Nat := idxOfGo ch 0 l

/-! ### A small backtracking regex matcher

Only the constructs actually used by the source's regexes are provided:
literal strings (matched case-insensitively, for the `/i` flag), character
classes, greedy `*`/`+` over a character class, greedy `?`, capture groups
1 and 2, sequencing, alternation and the `^`/`$` anchors.  `matchRE` is a
continuation-passing matcher with the same preference order as the JS
engine: greedy quantifiers try the longest repetition first, alternation
tries the left branch first, and the overall search tries start positions
left to right. -/

/-- Capture groups 1 and 2 (`none` models an unparticipating group, JS
`undefined`). -/
abbrev Caps := Option (List Char) × Option (List Char)

/-- Regex abstract syntax (see the module comment). -/
inductive RE where
  | eps
  | str (pat : List Char)
  | cls (p : Char → Bool)
  | many (p : Char → Bool)
  | many1 (p : Char → Bool)
  | opt (r : RE)
  | grp (n : Nat) (r : RE)
  | seq (a b : RE)
  | alt (a b : RE)
  | bos
  | eos

/-- Record the text of capture group `n`. -/
def setCap (n : Nat) (v : List Char) (c : Caps) : Caps :=
  if n == 1 then (some v, c.2) else (c.1, some v)

/-- Length of the maximal run of characters satisfying `p`. -/
def runLen (p : Char → Bool) : List Char → Nat
  | [] => 0
  | c :: cs => if p c then runLen p cs + 1 else 0

/-- Try the continuation at offsets `i + j`, `i + j - 1`, …, `i`
(longest first: greedy `*`). -/
def tryDownFrom (k : Nat → Caps → Option (Nat × Caps)) (i : Nat) (c : Caps) :
    Nat → Option (Nat × Caps)
  | 0 => k i c
  | j + 1 =>
    match k (i + j + 1) c with
    | some r => some r
    | none => tryDownFrom k i c j

/-- As `tryDownFrom` but requiring at least one consumed character
(greedy `+`). -/
def tryDownFrom1 (k : Nat → Caps → Option (Nat × Caps)) (i : Nat) (c : Caps) :
    Nat → Option (Nat × Caps)
  | 0 => none
  | j + 1 =>
    match k (i + j + 1) c with
    | some r => some r
    | none => tryDownFrom1 k i c j

/-- Match `r` against `s` starting at offset `i` with captures `c`,
calling the continuation `k` on every candidate end position in the JS
engine's preference order; the first success wins. -/
def matchRE (s : List Char) : RE → Nat → Caps →
    (Nat → Caps → Option (Nat × Caps)) → Option (Nat × Caps)
  | .eps, i, c, k => k i c
  | .str pat, i, c, k =>
    if startsWithCI pat (s.drop i) then k (i + pat.length) c else none
  | .cls p, i, c, k =>
    match (s.drop i).head? with
    | some ch => if p ch then k (i + 1) c else none
    | none => none
  | .many p, i, c, k => tryDownFrom k i c (runLen p (s.drop i))
  | .many1 p, i, c, k => tryDownFrom1 k i c (runLen p (s.drop i))
  | .opt r, i, c, k =>
    match matchRE s r i c k with
    | some res => some res
    | none => k i c
  | .grp n r, i, c, k =>
    matchRE s r i c (fun j cj => k j (setCap n ((s.drop i).take (j - i)) cj))
  | .seq a b, i, c, k => matchRE s a i c (fun j cj => matchRE s b j cj k)
  | .alt a b, i, c, k =>
    match matchRE s a i c k with
    | some res => some res
    | none => matchRE s b i c k
  | .bos, i, c, k => if i == 0 then k i c else none
  | .eos, i, c, k => if i == s.length then k i c else none

/-- Scan start positions `i, i+1, …` (with fuel) for the leftmost match;
returns `(start, end, captures)`. -/
def reSearchGo (s : List Char) (r : RE) : Nat → Nat → Option (Nat × Nat × Caps)
  | _, 0 => none
  | i, fuel + 1 =>
    match matchRE s r i (none, none) (fun j c => some (j, c)) with
    | some (j, c) => some (i, j, c)
    | none => reSearchGo s r (i + 1) fuel

/-- JS `string.match(re)` / `string.search(re)`: leftmost match of `r`
in `s`. -/
def reSearch (r : RE) (s : List Char) : Option (Nat × Nat × Caps) :=
  reSearchGo s r 0 (s.length + 1)

/-- JS `re.test(s)`. -/
def reTest (r : RE) (s : String) : Bool := (reSearch r s.data).isSome

/-! ### The field-extraction parser (`parseCorneaData` in the v1 page) -/

/-- The class `[0-9.]`. -/
def dotDigit (c : Char) : Bool := c.isDigit || c == '.'

/-- The class `[-0-9.]`. -/
def negDotDigit (c : Char) : Bool := c == '-' || c.isDigit || c == '.'

/-- The class `[:\s]`. -/
def colonWs (c : Char) : Bool := c == ':' || jsWhitespace c

/-- The class `[:\s.]`. -/
def colonWsDot (c : Char) : Bool := c == ':' || jsWhitespace c || c == '.'

/-- The class `[^\d]`. -/
def notDigitC (c : Char) : Bool := !c.isDigit

/-- The class `[^-\d]`. -/
def notNegDigit (c : Char) : Bool := !(c == '-' || c.isDigit)

/-- The pattern `/<Label>[:\s]+([0-9.]+)/i` (labels pre-lowercased). -/
def reLabelNum (label : String) : RE :=
  .seq (.str label.data) (.seq (.many1 colonWs) (.grp 1 (.many1 dotDigit)))

/-- The pattern `/<Label>[:\s]+([-0-9.]+)/i` used for the back keratometry
values, which may be negative. -/
def reLabelNumNeg (label : String) : RE :=
  .seq (.str label.data) (.seq (.many1 colonWs) (.grp 1 (.many1 negDotDigit)))

/-- `/Q-val[^-\d]*([-0-9.]+)/i`. -/
def reQval : RE :=
  .seq (.str "q-val".data) (.seq (.many notNegDigit) (.grp 1 (.many1 negDotDigit)))

/-- `/Axis[^\d]*(flat)?[:\s]*([0-9.]+)/i`. -/
def reAxisLbl : RE :=
  .seq (.str "axis".data)
    (.seq (.many notDigitC)
      (.seq (.opt (.grp 1 (.str "flat".data)))
        (.seq (.many colonWs) (.grp 2 (.many1 dotDigit)))))

/-- `/([0-9.]+)\s*°/`. -/
def reDegree : RE :=
  .seq (.grp 1 (.many1 dotDigit)) (.seq (.many jsWhitespace) (.cls (fun c => c == '°')))

/-- `/Pupil Center[:\s]+[+]?([0-9.]+)/i`. -/
def rePupilCenter : RE :=
  .seq (.str "pupil center".data)
    (.seq (.many1 colonWs) (.seq (.opt (.cls (fun c => c == '+'))) (.grp 1 (.many1 dotDigit))))

/-- `/Pachy Apex[:\s]+([0-9.]+)/i`. -/
def rePachyApex : RE := reLabelNum "pachy apex"

/-- `/Thinnest Local[:\s]+[◇]?\s*([0-9.]+)/i`. -/
def reThinnest : RE :=
  .seq (.str "thinnest local".data)
    (.seq (.many1 colonWs)
      (.seq (.opt (.cls (fun c => c == '◇')))
        (.seq (.many jsWhitespace) (.grp 1 (.many1 dotDigit)))))

/-- `/([0-9]+\.[0-9]+)/`. -/
def reDecimal : RE :=
  .grp 1 (.seq (.many1 Char.isDigit) (.seq (.cls (fun c => c == '.')) (.many1 Char.isDigit)))

/-- `/Pupil\s+Dia[:\s.]+([0-9.]+)/i`. -/
def rePupilDiaA : RE :=
  .seq (.str "pupil".data)
    (.seq (.many1 jsWhitespace)
      (.seq (.str "dia".data) (.seq (.many1 colonWsDot) (.grp 1 (.many1 dotDigit)))))

/-- `/Pupil\s*Diameter[:\s]+([0-9.]+)/i`. -/
def rePupilDiaB : RE :=
  .seq (.str "pupil".data)
    (.seq (.many jsWhitespace)
      (.seq (.str "diameter".data) (.seq (.many1 colonWs) (.grp 1 (.many1 dotDigit)))))

/-- `/Cornea\s*Front|^Front$/i`, tested against single lines. -/
def reFrontHead : RE :=
  .alt (.seq (.str "cornea".data) (.seq (.many jsWhitespace) (.str "front".data)))
    (.seq .bos (.seq (.str "front".data) .eos))

/-- `/Cornea\s*Back|^Back$/i`, tested against single lines. -/
def reBackHead : RE :=
  .alt (.seq (.str "cornea".data) (.seq (.many jsWhitespace) (.str "back".data)))
    (.seq .bos (.seq (.str "back".data) .eos))

/-- `/Depth/i` (used with `String.prototype.search`). -/
def reDepth : RE := .str "depth".data

/-- The source's `extractValue`: leftmost match, capture group 1, JS-falsy
check and `trim`; sentinel `"-"` otherwise. -/
def extractValue (t : String) (r : RE) : String :=
  match reSearch r t.data with
  | none => "-"
  | some (_, _, caps) =>
    match caps.1 with
    | none => "-"
    | some v => if v.isEmpty then "-" else String.mk (trimChars v)

/-- The source's `extractValueWithNegative` (its body is identical to
`extractValue`; negativity lives in the pattern passed in). -/
def extractValueWithNegative (t : String) (r : RE) : String :=
  match reSearch r t.data with
  | none => "-"
  | some (_, _, caps) =>
    match caps.1 with
    | none => "-"
    | some v => if v.isEmpty then "-" else String.mk (trimChars v)

/-- JS `a || b` on a possibly-absent capture (empty string is falsy). -/
def jsOrStr (a : Option (List Char)) (fallback : String) : String :=
  match a with
  | some v => if v.isEmpty then fallback else String.mk v
  | none => fallback

/-- The Axis extraction: try `/Axis[^\d]*(flat)?[:\s]*([0-9.]+)/i`, else the
bare-degree pattern `/([0-9.]+)\s*°/`; value is `match[2] || match[1] || '-'`. -/
def axisValue (t : String) : String :=
  match reSearch reAxisLbl t.data with
  | some (_, _, (g1, g2)) => jsOrStr g2 (jsOrStr g1 "-")
  | none =>
    match reSearch reDegree t.data with
    | some (_, _, (g1, _)) => jsOrStr g1 "-"
    | none => "-"

/-- The A.C. Depth extraction: find the first case-insensitive `Depth`, take
the 150-character window starting there, find the first `:` in the window,
then the first `\d+\.\d+` after that colon; sentinel `"-"` at every failure
point. -/
def acDepth (text : String) : String :=
  match reSearch reDepth text.data with
  | none => "-"
  | some (d, _, _) =>
    let afterDepth := (text.data.drop d).take 150
    match idxOfChar ':' afterDepth with
    | none => "-"
    | some ci =>
      let afterColon := afterDepth.drop (ci + 1)
      match reSearch reDecimal afterColon with
      | some (_, _, (some v, _)) => String.mk v
      | _ => "-"

/-- The Pupil Dia extraction: `/Pupil\s+Dia[:\s.]+([0-9.]+)/i` first, then
`/Pupil\s*Diameter[:\s]+([0-9.]+)/i`. -/
def pupilDia (text : String) : String :=
  match reSearch rePupilDiaA text.data with
  | some (_, _, (some v, _)) => String.mk v
  | some (_, _, (none, _)) => "-"
  | none =>
    match reSearch rePupilDiaB text.data with
    | some (_, _, (some v, _)) => String.mk v
    | _ => "-"

/-- `text.split('\n').map(l => l.trim()).filter(l => l.length > 0)`. -/
def jsLines (text : String) : List String :=
  ((splitChar '\n' text.data).map (fun cs => String.mk (trimChars cs))).filter
    (fun s => 0 < s.length)

/-- `lines.findIndex(l => /Cornea\s*Front|^Front$/i.test(l))`. -/
def frontIdxOf (text : String) : Int :=
  jsFindIndex (fun l => reTest reFrontHead l) (jsLines text)

/-- `lines.findIndex(l => /Cornea\s*Back|^Back$/i.test(l))`. -/
def backIdxOf (text : String) : Int :=
  jsFindIndex (fun l => reTest reBackHead l) (jsLines text)

/-- The front/back section split of `parseCorneaData`: both headings found in
order → split at the back heading; exactly one found (or both out of order) →
midpoint split; neither → both sections are the whole raw text. -/
def sectionSplit (text : String) : String × String :=
  let lines := jsLines text
  let frontIndex := frontIdxOf text
  let backIndex := backIdxOf text
  if frontIndex ≠ -1 ∧ backIndex ≠ -1 ∧ frontIndex < backIndex then
    (joinSp ((lines.drop frontIndex.toNat).take (backIndex - frontIndex).toNat),
     joinSp (lines.drop backIndex.toNat))
  else if frontIndex ≠ -1 ∨ backIndex ≠ -1 then
    (joinSp (lines.take (lines.length / 2)), joinSp (lines.drop (lines.length / 2)))
  else (text, text)

/-- `fields ? fields.split(',').map(f => f.trim().toLowerCase()) : []`. -/
def jsFields (fields : String) : List String :=
  if fields = "" then []
  else (splitChar ',' fields.data).map (fun cs => String.mk ((trimChars cs).map Char.toLower))

/-- `requestedFields.some(f => f.includes(s₁) || f.includes(s₂) || …)`. -/
def anyIncl (req : List String) (subs : List String) : Bool :=
  req.any (fun f => subs.any (fun sub => strIncludes f sub))

/-- The v1 page's `parseCorneaData(text, fields)`: section split, field
gating, then the per-group label-anchored extractions, in the source's
insertion order.  The result models the JS object as an ordered
key/value list (all keys are distinct). -/
def parseCorneaData (text fields : String) : List (String × String) :=
  let fb := sectionSplit text
  let frontText := fb.1
  let backText := fb.2
  let req := jsFields fields
  let extractAll := req.isEmpty || req.contains "tümü" || req.contains "all"
  (if extractAll || anyIncl req ["rh", "radius"] then
    [("Front_Rh", extractValue frontText (reLabelNum "rh")),
     ("Front_Rv", extractValue frontText (reLabelNum "rv")),
     ("Front_Rm", extractValue frontText (reLabelNum "rm"))] else [])
  ++ (if extractAll || anyIncl req ["k", "keratometry"] then
    [("Front_K1", extractValue frontText (reLabelNum "k1")),
     ("Front_K2", extractValue frontText (reLabelNum "k2")),
     ("Front_Km", extractValue frontText (reLabelNum "km"))] else [])
  ++ (if extractAll || anyIncl req ["axis", "astig"] then
    [("Front_Axis", axisValue frontText),
     ("Front_Astig", extractValue frontText (reLabelNum "astig"))] else [])
  ++ (if extractAll || anyIncl req ["q"] then
    [("Front_Q-val", extractValue frontText reQval)] else [])
  ++ (if extractAll || anyIncl req ["rper", "rmin"] then
    [("Front_Rper", extractValue frontText (reLabelNum "rper")),
     ("Front_Rmin", extractValue frontText (reLabelNum "rmin"))] else [])
  ++ (if extractAll || anyIncl req ["rh", "radius"] then
    [("Back_Rh", extractValueWithNegative backText (reLabelNum "rh")),
     ("Back_Rv", extractValueWithNegative backText (reLabelNum "rv")),
     ("Back_Rm", extractValueWithNegative backText (reLabelNum "rm"))] else [])
  ++ (if extractAll || anyIncl req ["k", "keratometry"] then
    [("Back_K1", extractValueWithNegative backText (reLabelNumNeg "k1")),
     ("Back_K2", extractValueWithNegative backText (reLabelNumNeg "k2")),
     ("Back_Km", extractValueWithNegative backText (reLabelNumNeg "km"))] else [])
  ++ (if extractAll || anyIncl req ["axis", "astig"] then
    [("Back_Axis", axisValue backText),
     ("Back_Astig", extractValueWithNegative backText (reLabelNum "astig"))] else [])
  ++ (if extractAll || anyIncl req ["q"] then
    [("Back_Q-val", extractValueWithNegative backText reQval)] else [])
  ++ (if extractAll || anyIncl req ["rper", "rmin"] then
    [("Back_Rper", extractValueWithNegative backText (reLabelNum "rper")),
     ("Back_Rmin", extractValueWithNegative backText (reLabelNum "rmin"))] else [])
  ++ (if extractAll || anyIncl req ["pachy"] then
    [("Pachy_Center", extractValue text rePupilCenter),
     ("Pachy_Apex", extractValue text rePachyApex),
     ("Pachy_Thinnest", extractValue text reThinnest)] else [])
  ++ (if extractAll || anyIncl req ["ac", "depth", "pupil"] then
    [("AC_Depth", acDepth text),
     ("Pupil_Dia", pupilDia text)] else [])

/-! ### The region compositor (`combineRegions` in the v2 editor page)

`cropRegion` and the canvas drawing are image-codec operations performed by
the browser; the compositor's own logic is the layout arithmetic over the
cropped images' pixel dimensions, embedded here.  `combineRegions` crops
every rectangle in input order (it performs no dimension check), then lays
the crops out left to right with a fixed 10-pixel gap, recording for each
crop the half-open x-range it occupies in the composite. -/

/-- The `GAP` constant of `combineRegions`. -/
def GAP : Nat := 10

/-- One cropped region as decoded from its blob: the source rectangle's id
and the crop's pixel dimensions. -/
structure CroppedImage where
  id : String
  width : Nat
  height : Nat
deriving DecidableEq, Repr

/-- One entry of the composite layout (`boundaries` in the source):
the region id and the half-open pixel range `[xStart, xEnd)` its crop
occupies in the composite image. -/
structure Boundary where
  id : String
  xStart : Nat
  xEnd : Nat
deriving DecidableEq, Repr

/-- The layout loop of `combineRegions`: `currentX` starts at `x`; each crop
gets `[currentX, currentX + width)` and advances `currentX` by
`width + GAP`. -/
def combineBoundaries (x : Nat) : List CroppedImage → List Boundary
  | [] => []
  | c :: rest => ⟨c.id, x, x + c.width⟩ :: combineBoundaries (x + c.width + GAP) rest

/-- `totalWidth` in `combineRegions`:
`crops.reduce((s, img) => s + img.width, 0) + GAP * (crops.length - 1)`
(an `Int`, since JS evaluates `GAP * (0 - 1)` for an empty list). -/
def combineTotalWidth (crops : List CroppedImage) : Int :=
  ((crops.map (fun c => c.width)).sum : Int) + (GAP : Int) * ((crops.length : Int) - 1)

/-! ### Region-composite attribution (`parseRegionResults` in the v2 page)

Detector pixel coordinates are integers; the only non-integer quantities in
the attribution code are the vertex mean `sum / count` and the thresholds
`width * 0.33` / `width * 0.50`, so they are modelled as exact fractions
(`Frac`, an `Int` numerator over a positive `Nat` denominator, compared by
cross-multiplication). -/

/-- An exact fraction `num / den`; every `Frac` built below has a positive
denominator. -/
structure Frac where
  num : Int
  den : Nat
deriving DecidableEq, Repr

/-- `a < b` for fractions with positive denominators. -/
def ltFrac (a b : Frac) : Bool := a.num * (b.den : Int) < b.num * (a.den : Int)

/-- `a ≤ b` for fractions with positive denominators. -/
def leFrac (a b : Frac) : Bool := a.num * (b.den : Int) ≤ b.num * (a.den : Int)

/-- A natural number as a fraction. -/
def fracOfNat (n : Nat) : Frac := ⟨(n : Int), 1⟩

/-- One vertex of a detector bounding box (`x`/`y` may be absent; the code
defends with `v.x || 0`). -/
structure RVertex where
  x : Option Int
  y : Option Int
deriving DecidableEq

/-- One OCR text block handed to `parseRegionResults`:
`{ description: string; boundingBox: {x, y}[] }` with a possibly missing
bounding box. -/
structure TextBlock where
  description : String
  boundingBox : Option (List RVertex)
deriving DecidableEq

/-- JS object assignment `m[k] = v` on an insertion-ordered key/value list:
overwriting keeps the original slot, a new key is appended. -/
def setKV (m : List (String × α)) (k : String) (v : α) : List (String × α) :=
  match m with
  | [] => [(k, v)]
  | (q, w) :: rest => if q = k then (k, v) :: rest else (q, w) :: setKV rest k v

/-- Mean x-coordinate of a bounding box:
`box.reduce((sum, v) => sum + (v.x || 0), 0) / box.length`. -/
def avgXOf (vs : List RVertex) : Frac :=
  ⟨(vs.map (fun v => (v.x.getD 0))).sum, vs.length⟩

/-- `avgX >= b.xStart && avgX < b.xEnd`. -/
def boundContains (b : Boundary) (q : Frac) : Bool :=
  leFrac (fracOfNat b.xStart) q && ltFrac q (fracOfNat b.xEnd)

/-- The block-to-region assignment of `parseRegionResults`: skip blocks with
a missing or empty bounding box, else the id of the first boundary whose
range contains the block's mean x (the inner `for … break` loop). -/
def regionAssign (bs : List Boundary) (blk : TextBlock) : Option String :=
  match blk.boundingBox with
  | none => none
  | some vs =>
    if vs.length = 0 then none
    else (bs.find? (fun b => boundContains b (avgXOf vs))).map (fun b => b.id)

/-- One step of the assignment fold: push the block's text onto its region's
bucket (if it has one). -/
def regionStep (bs : List Boundary) (m : List (String × List String)) (blk : TextBlock) :
    List (String × List String) :=
  match regionAssign bs blk with
  | none => m
  | some rid => setKV m rid (((List.lookup rid m).getD []) ++ [blk.description])

/-- `texts.join(' ').replace(/\s+/g, ' ').trim() || '-'`. -/
def renderTexts (texts : List String) : String :=
  let s := jsTrim (collapseWs (joinSp texts))
  if s = "" then "-" else s

/-- The v2 page's `parseRegionResults(textBlocks, boundaries)`: initialise a
bucket per boundary id, assign each block by mean x, then join each bucket's
texts (single spaces, collapsed whitespace, trimmed, `"-"` when empty). -/
def parseRegionResults (blocks : List TextBlock) (bs : List Boundary) :
    List (String × String) :=
  let init : List (String × List String) :=
    bs.foldl (fun m b => setKV m b.id ([] : List String)) []
  let filled := blocks.foldl (regionStep bs) init
  filled.map (fun p => (p.1, renderTexts p.2))

/-- The texts assigned to region `rid`, in block order (phrases the claim's
partition property: a block contributes exactly when the first containing
range is `rid`). -/
def regionTexts (bs : List Boundary) (rid : String) (blocks : List TextBlock) :
    List String :=
  blocks.filterMap (fun blk =>
    if regionAssign bs blk = some rid then some blk.description else none)

/-! ### Full-page attribution (the `imageType === 'full'` branch of the
`/api/ocr` route handler) -/

/-- One vertex of a Google Vision bounding poly (fields are nullable;
pixel coordinates are integers). -/
structure GVertex where
  x : Option Int
  y : Option Int
deriving DecidableEq

/-- One entry of `result.textAnnotations`: nullable `description` and the
(flattened) `boundingPoly?.vertices`. -/
structure Annotation where
  description : Option String
  vertices : Option (List GVertex)
deriving DecidableEq

/-- JS `Math.max(...l)`: `none` models the `-Infinity` returned for an empty
argument list. -/
def jsMaxInt : List Int → Option Int
  | [] => none
  | x :: xs => some (xs.foldl max x)

/-- `firstBBox ? Math.max(...firstBBox.map(v => v.x || 0)) : 1000` where
`firstBBox = detections[0]?.boundingPoly?.vertices`. -/
def imageWidthOf (ds : List Annotation) : Option Int :=
  match ds.head? >>= (fun d => d.vertices) with
  | none => some 1000
  | some vs => jsMaxInt (vs.map (fun v => v.x.getD 0))

/-- `leftThreshold = imageWidth * 0.33` (`-Infinity` stays `-Infinity`). -/
def leftThreshOf (ds : List Annotation) : Option Frac :=
  (imageWidthOf ds).map (fun w => ⟨w * 33, 100⟩)

/-- `extendedThreshold = imageWidth * 0.50`. -/
def extThreshOf (ds : List Annotation) : Option Frac :=
  (imageWidthOf ds).map (fun w => ⟨w * 50, 100⟩)

/-- `a < t` where `t` may be `-Infinity` (`none`), in which case the
comparison is false. -/
def ltMaybe (a : Frac) : Option Frac → Bool
  | none => false
  | some t => ltFrac a t

/-- Mean x of an annotation's vertices
(`vertices.reduce((s, v) => s + (v.x || 0), 0) / vertices.length`). -/
def avgXAnn (vs : List GVertex) : Frac :=
  ⟨(vs.map (fun v => v.x.getD 0)).sum, vs.length⟩

/-- The primary filter (main data blocks): guarded mean-x test against the
33% threshold. -/
def mainPred (thr : Option Frac) (t : Annotation) : Bool :=
  match t.vertices with
  | none => false
  | some vs => if vs.length = 0 then false else ltMaybe (avgXAnn vs) thr

/-- The keyword allow-list of the extended filter. -/
def keywordList : List String :=
  ["depth", "pupil", "chamber", "iop", "pachy", "lens", "dia"]

/-- The extended filter: guarded mean-x test against the 50% threshold AND
lexical relevance of the lower-cased description. -/
def extPred (thr : Option Frac) (t : Annotation) : Bool :=
  match t.vertices with
  | none => false
  | some vs =>
    if vs.length = 0 then false
    else
      let desc := jsToLower (t.description.getD "")
      ltMaybe (avgXAnn vs) thr && keywordList.any (fun kw => strIncludes desc kw)

/-- Indices (into the list, starting at `start`) of the elements satisfying
`p`; `Array.prototype.filter` keeps order, and JS `includes` on the filtered
arrays compares object identity, which for distinct list positions is the
position itself. -/
def idxWhereGo (p : α → Bool) : Nat → List α → List Nat
  | _, [] => []
  | i, a :: as => if p a then i :: idxWhereGo p (i + 1) as else idxWhereGo p (i + 1) as

/-- Indices of the elements of `l` satisfying `p`, in order. -/
def idxWhere (p : α → Bool) (l : List α) : List Nat := idxWhereGo p 0 l

/-- Indices (among the non-summary fragments `detections.slice(1)`) of the
`mainDataBlocks`. -/
def mainIdxOf (ds : List Annotation) : List Nat :=
  idxWhere (mainPred (leftThreshOf ds)) (ds.drop 1)

/-- Indices of the `extendedDataBlocks`. -/
def extIdxOf (ds : List Annotation) : List Nat :=
  idxWhere (extPred (extThreshOf ds)) (ds.drop 1)

/-- `combinedBlocks`: the main blocks followed by those extended blocks not
already among the main blocks (`if (!mainDataBlocks.includes(block))`). -/
def combinedIdxOf (ds : List Annotation) : List Nat :=
  mainIdxOf ds ++ (extIdxOf ds).filter (fun i => !(mainIdxOf ds).contains i)

/-- Description of the `i`-th non-summary fragment (`''` when absent, as
`Array.prototype.join` renders `null` as the empty string). -/
def blockDescAt (frags : List Annotation) (i : Nat) : String :=
  ((frags.drop i).head? >>= (fun t => t.description)).getD ""

/-- `detections[0]?.description || ''`: the whole-image summary text. -/
def summaryOf (ds : List Annotation) : String :=
  (ds.head? >>= (fun d => d.description)).getD ""

/-- `processedText` in the `imageType === 'full'` branch:
`combinedBlocks.map(b => b.description).join('\n') || processedText`, the
right operand being the summary text. -/
def processedTextFull (ds : List Annotation) : String :=
  let frags := ds.drop 1
  let joined := joinNl ((combinedIdxOf ds).map (blockDescAt frags))
  if joined = "" then summaryOf ds else joined

/-- Written from the claim's wording for C5: the detector-order subsequence
restricted to fragments in primary ∪ extended. -/
def detectorOrderUnion (ds : List Annotation) : List Nat :=
  idxWhere (fun t => mainPred (leftThreshOf ds) t || extPred (extThreshOf ds) t) (ds.drop 1)

/-- Written from the claim's wording for C4: the unfiltered fragment list
reassembled with newline separators. -/
def unfilteredJoin (ds : List Annotation) : String :=
  joinNl ((ds.drop 1).map (fun t => t.description.getD ""))

/-- Written from the spec's wording for C9 (§4.3, anterior-chamber depth):
locate the first case-insensitive occurrence of `Depth`; take the
150-character window starting there; find the first `:` within the window;
after that colon take the first decimal number `\d+\.\d+`; sentinel `"-"`
when any stage fails. -/
def acDepthSpec (text : String) : String :=
  match reSearch reDepth text.data with
  | none => "-"
  | some (d, _, _) =>
    let window := (text.data.drop d).take 150
    match idxOfChar ':' window with
    | none => "-"
    | some ci =>
      match reSearch reDecimal (window.drop (ci + 1)) with
      | some (_, _, (some v, _)) => String.mk v
      | _ => "-"

/-! ### Concrete inputs used by the claim theorems -/

/-- The keratometry example text of the spec (§8). -/
def kExampleText : String :=
  "Cornea Front\nK1: 43.50\nK2: 44.20\nCornea Back\nK1: -6.10\nK2: -6.30"

/-- A text whose back section carries a negative radius value. -/
def negRadiusText : String := "Cornea Front\nRh: 7.10\nCornea Back\nRh: -6.10"

/-- The same text with the back radius unsigned. -/
def posRadiusText : String := "Cornea Front\nRh: 7.10\nCornea Back\nRh: 6.10"

/-- A crop list containing a degenerate (zero-width, zero-height) region. -/
def degenerateCrops : List CroppedImage := [⟨"a", 5, 3⟩, ⟨"b", 0, 0⟩, ⟨"c", 7, 2⟩]

/-- A pair of well-formed crops. -/
def twoCrops : List CroppedImage := [⟨"a", 5, 3⟩, ⟨"b", 7, 4⟩]

/-- Layout of two regions with the standard gap. -/
def twoBounds : List Boundary := [⟨"a", 0, 5⟩, ⟨"b", 15, 22⟩]

/-- Text blocks for the region-attribution example: two in the first range,
one in the second, one in the gap. -/
def regionBlocksEx : List TextBlock :=
  [⟨"hello", some [⟨some 1, none⟩, ⟨some 3, none⟩]⟩,
   ⟨"world", some [⟨some 16, none⟩]⟩,
   ⟨"gap", some [⟨some 10, none⟩]⟩,
   ⟨" spaced  out ", some [⟨some 2, none⟩]⟩]

/-- Detections where an extended-zone keyword fragment precedes a primary
fragment in detector order (summary first; width 1000, so the thresholds are
330 and 500). -/
def orderDs : List Annotation :=
  [⟨some "S", some [⟨some 1000, some 0⟩]⟩,
   ⟨some "depth", some [⟨some 400, some 0⟩]⟩,
   ⟨some "K1", some [⟨some 100, some 0⟩]⟩]

/-- Detections with a non-empty fragment list whose only fragment sits right
of both thresholds, so the primary ∪ extended union is empty. -/
def emptyUnionDs : List Annotation :=
  [⟨some "S", some [⟨some 1000, none⟩]⟩,
   ⟨some "FAR", some [⟨some 900, none⟩]⟩]

/-! ### Lemmas about the compositor layout -/

theorem combineBoundaries_map_id (crops : List CroppedImage) :
    ∀ x, (combineBoundaries x crops).map (fun b => b.id) = crops.map (fun c => c.id) := by
  induction crops with
  | nil => intro x; rfl
  | cons c rest ih => intro x; simp [combineBoundaries, ih]

theorem combineBoundaries_length (crops : List CroppedImage) :
    ∀ x, (combineBoundaries x crops).length = crops.length := by
  induction crops with
  | nil => intro x; rfl
  | cons c rest ih => intro x; simp [combineBoundaries, ih]

theorem combineBoundaries_start_le (crops : List CroppedImage) :
    ∀ x, ∀ b ∈ combineBoundaries x crops, x ≤ b.xStart ∧ b.xStart ≤ b.xEnd := by
  induction crops with
  | nil => intro x b hb; simp [combineBoundaries] at hb
  | cons c rest ih =>
    intro x b hb
    simp only [combineBoundaries, List.mem_cons] at hb
    rcases hb with h | h
    · subst h; exact ⟨Nat.le_refl _, Nat.le_add_right _ _⟩
    · have := ih (x + c.width + GAP) b h
      omega

theorem combineBoundaries_pairwise (crops : List CroppedImage) :
    ∀ x, List.Pairwise (fun a b => a.xEnd ≤ b.xStart) (combineBoundaries x crops) := by
  induction crops with
  | nil => intro x; exact List.Pairwise.nil
  | cons c rest ih =>
    intro x
    refine List.Pairwise.cons ?_ (ih (x + c.width + GAP))
    intro b hb
    have := combineBoundaries_start_le rest (x + c.width + GAP) b hb
    show x + c.width ≤ b.xStart
    omega

theorem combineBoundaries_chain (crops : List CroppedImage) :
    ∀ x, List.Chain' (fun a b => b.xStart = a.xEnd + GAP) (combineBoundaries x crops) := by
  induction crops with
  | nil => intro x; exact List.chain'_nil
  | cons c rest ih =>
    intro x
    cases rest with
    | nil => exact List.chain'_singleton _
    | cons c2 r2 =>
      rw [combineBoundaries, combineBoundaries, List.chain'_cons]
      exact ⟨rfl, by rw [← combineBoundaries] ; exact ih (x + c.width + GAP)⟩

theorem combineBoundaries_last (crops : List CroppedImage) :
    ∀ x c, ∃ b : Boundary, (combineBoundaries x (c :: crops)).getLast? = some b ∧
      b.xEnd = x + ((c :: crops).map (fun q => q.width)).sum + GAP * crops.length := by
  induction crops with
  | nil =>
    intro x c
    exact ⟨⟨c.id, x, x + c.width⟩, rfl, by simp⟩
  | cons c2 r2 ih =>
    intro x c
    obtain ⟨b, hb, he⟩ := ih (x + c.width + GAP) c2
    refine ⟨b, ?_, ?_⟩
    · rw [combineBoundaries]
      rw [combineBoundaries] at hb ⊢
      rw [List.getLast?_cons_cons]
      exact hb
    · simp only [List.map_cons, List.sum_cons, List.length_cons] at he ⊢
      rw [he]; ring

/-- C2: for every non-empty crop sequence the compositor's layout preserves
the input order (same ids in the same order), its ranges are pairwise
non-overlapping, consecutive ranges are separated by exactly `GAP` pixels,
and the composite canvas width equals the sum of the crop widths plus
`GAP * (n - 1)` (which is also the last range's right edge). -/
theorem c2_layout_invariants (crops : List CroppedImage) (hne : crops ≠ []) :
    (combineBoundaries 0 crops).map (fun b => b.id) = crops.map (fun c => c.id)
    ∧ List.Pairwise (fun a b => a.xEnd ≤ b.xStart) (combineBoundaries 0 crops)
    ∧ List.Chain' (fun a b => b.xStart = a.xEnd + GAP) (combineBoundaries 0 crops)
    ∧ combineTotalWidth crops =
        ((crops.map (fun c => c.width)).sum : Int) + (GAP : Int) * ((crops.length : Int) - 1)
    ∧ ∃ b : Boundary, (combineBoundaries 0 crops).getLast? = some b ∧
        (b.xEnd : Int) = combineTotalWidth crops := by
  refine ⟨combineBoundaries_map_id crops 0, combineBoundaries_pairwise crops 0,
    combineBoundaries_chain crops 0, rfl, ?_⟩
  obtain ⟨c, rest, rfl⟩ := List.exists_cons_of_ne_nil hne
  obtain ⟨b, hb, he⟩ := combineBoundaries_last rest 0 c
  refine ⟨b, hb, ?_⟩
  have hw : combineTotalWidth (c :: rest) =
      (((((c :: rest).map (fun q => q.width)).sum + GAP * rest.length : Nat)) : Int) := by
    unfold combineTotalWidth
    push_cast
    simp only [List.map_map, Function.comp_def, List.length_cons, List.map_cons, List.sum_cons]
    push_cast
    ring
  rw [hw, he]
  push_cast
  ring

theorem c2_layout_invariants_witness :
    (combineBoundaries 0 twoCrops).map (fun b => b.id) = twoCrops.map (fun c => c.id)
    ∧ List.Pairwise (fun a b => a.xEnd ≤ b.xStart) (combineBoundaries 0 twoCrops)
    ∧ List.Chain' (fun a b => b.xStart = a.xEnd + GAP) (combineBoundaries 0 twoCrops)
    ∧ combineTotalWidth twoCrops =
        ((twoCrops.map (fun c => c.width)).sum : Int) + (GAP : Int) * ((twoCrops.length : Int) - 1)
    ∧ ∃ b : Boundary, (combineBoundaries 0 twoCrops).getLast? = some b ∧
        (b.xEnd : Int) = combineTotalWidth twoCrops :=
  c2_layout_invariants twoCrops (by decide)

/-- C7 amended: the compositor performs no dimension check: every region,
degenerate or not, produces exactly one layout entry, so the layout list
always has the same length and ids as the input (a zero-width crop yields
an empty range; in the browser its blob encoding fails and aborts the whole
composition rather than skipping the region). -/
theorem c7_no_skip_amended (x : Nat) (crops : List CroppedImage) :
    (combineBoundaries x crops).length = crops.length ∧
    (combineBoundaries x crops).map (fun b => b.id) = crops.map (fun c => c.id) :=
  ⟨combineBoundaries_length crops x, combineBoundaries_map_id crops x⟩

theorem c7_skip_counterexample :
    combineBoundaries 0 degenerateCrops =
      [⟨"a", 0, 5⟩, ⟨"b", 15, 15⟩, ⟨"c", 25, 32⟩]
    ∧ (combineBoundaries 0 degenerateCrops).map (fun b => b.id) ≠ ["a", "c"] := by
  exact ⟨rfl, by decide⟩

/-! ### Lemmas about the index filters of the route handler -/

theorem idxWhereGo_ge (p : α → Bool) (l : List α) :
    ∀ i, ∀ j ∈ idxWhereGo p i l, i ≤ j := by
  induction l with
  | nil => intro i j hj; simp [idxWhereGo] at hj
  | cons a as ih =>
    intro i j hj
    simp only [idxWhereGo] at hj
    by_cases h : p a
    · rw [if_pos h] at hj
      rcases List.mem_cons.mp hj with rfl | hj
      · exact Nat.le_refl _
      · exact Nat.le_of_succ_le (ih (i + 1) j hj)
    · rw [if_neg h] at hj
      exact Nat.le_of_succ_le (ih (i + 1) j hj)

theorem idxWhereGo_nodup (p : α → Bool) (l : List α) :
    ∀ i, (idxWhereGo p i l).Nodup := by
  induction l with
  | nil => intro i; simp [idxWhereGo]
  | cons a as ih =>
    intro i
    simp only [idxWhereGo]
    by_cases h : p a
    · rw [if_pos h]
      refine List.Nodup.cons ?_ (ih (i + 1))
      intro hmem
      have := idxWhereGo_ge p as (i + 1) i hmem
      omega
    · rw [if_neg h]; exact ih (i + 1)

theorem natContains_iff (l : List Nat) (a : Nat) : l.contains a = true ↔ a ∈ l := by
  induction l with
  | nil => simp
  | cons x xs ih => simp

/-- C5 amended: the returned fragment sequence contains exactly the
fragments of primary ∪ extended, with no fragment appearing twice; it is
ordered as the primary set (in detector order) followed by the remaining
extended fragments (in detector order), which is not in general the
detector-order subsequence of the union. -/
theorem c5_union_amended (ds : List Annotation) :
    (combinedIdxOf ds).Nodup ∧
    (∀ i, i ∈ combinedIdxOf ds ↔ (i ∈ mainIdxOf ds ∨ i ∈ extIdxOf ds)) := by
  constructor
  · refine List.Nodup.append (idxWhereGo_nodup _ _ 0)
      (List.Nodup.filter _ (idxWhereGo_nodup _ _ 0)) ?_
    intro a ha hb
    rw [List.mem_filter] at hb
    have : ¬ a ∈ mainIdxOf ds := by
      have h2 := hb.2
      simp only [Bool.not_eq_true'] at h2
      intro hmem
      rw [← natContains_iff (mainIdxOf ds) a] at hmem
      rw [hmem] at h2
      cases h2
    exact this ha
  · intro i
    unfold combinedIdxOf
    rw [List.mem_append, List.mem_filter]
    constructor
    · rintro (h | ⟨h, _⟩)
      · exact Or.inl h
      · exact Or.inr h
    · rintro (h | h)
      · exact Or.inl h
      · by_cases hm : i ∈ mainIdxOf ds
        · exact Or.inl hm
        · refine Or.inr ⟨h, ?_⟩
          simp only [Bool.not_eq_true']
          rw [← Bool.not_eq_true, natContains_iff]
          exact hm

theorem c5_order_counterexample :
    combinedIdxOf orderDs = [1, 0] ∧ detectorOrderUnion orderDs = [0, 1] ∧
    combinedIdxOf orderDs ≠ detectorOrderUnion orderDs := by
  refine ⟨rfl, rfl, ?_⟩
  decide

/-- C4 amended: when the primary ∪ extended union is empty, the full-page
attribution falls back directly to the whole-image summary text; there is
no intermediate fallback to the unfiltered fragment list. -/
theorem c4_fallback_amended (ds : List Annotation) (_hlen : 1 ≤ ds.length)
    (hempty : combinedIdxOf ds = []) : processedTextFull ds = summaryOf ds := by
  simp [processedTextFull, hempty, joinNl]

theorem c4_fallback_amended_witness : processedTextFull emptyUnionDs = summaryOf emptyUnionDs :=
  c4_fallback_amended emptyUnionDs (by decide) (by rfl)

theorem c4_fallback_counterexample :
    combinedIdxOf emptyUnionDs = [] ∧ (emptyUnionDs.drop 1).length = 1 ∧
    processedTextFull emptyUnionDs = "S" ∧ unfilteredJoin emptyUnionDs = "FAR" ∧
    processedTextFull emptyUnionDs ≠ unfilteredJoin emptyUnionDs := by
  refine ⟨rfl, rfl, rfl, rfl, ?_⟩
  decide

/-! ### String-length helper lemmas for the section-split claim -/

theorem strLenPos {s : String} (h : 0 < s.length) : s ≠ "" := by
  intro he
  rw [he] at h
  exact (by decide : ¬ (0 < ("" : String).length)) h

theorem strNeLen {s : String} (h : s ≠ "") : 0 < s.length := by
  cases s with
  | mk l =>
    cases l with
    | nil => exact absurd rfl h
    | cons c cs => simp [String.length]

theorem joinSp_len (x : String) (xs : List String) :
    x.length ≤ (joinSp (x :: xs)).length := by
  cases xs with
  | nil => exact Nat.le_refl _
  | cons y ys =>
    show x.length ≤ (x ++ " " ++ joinSp (y :: ys)).length
    rw [String.length_append, String.length_append]
    omega

theorem joinSp_cons_ne (x : String) (xs : List String) (hx : x ≠ "") :
    joinSp (x :: xs) ≠ "" := by
  apply strLenPos
  have h1 := strNeLen hx
  have h2 := joinSp_len x xs
  omega

theorem jsLines_ne_empty (text : String) : ∀ s ∈ jsLines text, s ≠ "" := by
  intro s hs
  unfold jsLines at hs
  rw [List.mem_filter] at hs
  exact strLenPos (of_decide_eq_true hs.2)

/-- C8 amended: in the midpoint-fallback branch the split really is at
`floor(n/2)`, and both sections are non-empty whenever there are at least
two lines (with a single line the front section is empty). -/
theorem c8_midpoint_amended (text : String)
    (hnot : ¬ (frontIdxOf text ≠ -1 ∧ backIdxOf text ≠ -1 ∧ frontIdxOf text < backIdxOf text))
    (hone : frontIdxOf text ≠ -1 ∨ backIdxOf text ≠ -1) :
    sectionSplit text =
      (joinSp ((jsLines text).take ((jsLines text).length / 2)),
       joinSp ((jsLines text).drop ((jsLines text).length / 2)))
    ∧ (2 ≤ (jsLines text).length →
        (sectionSplit text).1 ≠ "" ∧ (sectionSplit text).2 ≠ "") := by
  have heq : sectionSplit text =
      (joinSp ((jsLines text).take ((jsLines text).length / 2)),
       joinSp ((jsLines text).drop ((jsLines text).length / 2))) := by
    simp only [sectionSplit]
    rw [if_neg hnot, if_pos hone]
  refine ⟨heq, ?_⟩
  intro h2
  rw [heq]
  constructor
  · show joinSp ((jsLines text).take ((jsLines text).length / 2)) ≠ ""
    have hm : 1 ≤ (jsLines text).length / 2 := by
      rw [Nat.one_le_div_iff (by omega)]
      exact h2
    cases hjl : jsLines text with
    | nil => rw [hjl] at h2; simp at h2
    | cons l0 rest =>
      rw [hjl] at hm
      cases hn : (l0 :: rest).length / 2 with
      | zero => omega
      | succ m =>
        rw [List.take_succ_cons]
        refine joinSp_cons_ne l0 _ ?_
        exact jsLines_ne_empty text l0 (by rw [hjl]; exact List.mem_cons_self _ _)
  · show joinSp ((jsLines text).drop ((jsLines text).length / 2)) ≠ ""
    have hlt : (jsLines text).length / 2 < (jsLines text).length :=
      Nat.div_lt_self (by omega) (by omega)
    cases hd : (jsLines text).drop ((jsLines text).length / 2) with
    | nil =>
      have := congrArg List.length hd
      rw [List.length_drop] at this
      simp at this
      omega
    | cons d ds =>
      refine joinSp_cons_ne d ds ?_
      refine jsLines_ne_empty text d
        (List.mem_of_mem_drop (n := (jsLines text).length / 2) ?_)
      rw [hd]
      exact List.mem_cons_self _ _

theorem c8_midpoint_amended_witness :
    (sectionSplit "Front\nK1: 42.00" =
      (joinSp ((jsLines "Front\nK1: 42.00").take ((jsLines "Front\nK1: 42.00").length / 2)),
       joinSp ((jsLines "Front\nK1: 42.00").drop ((jsLines "Front\nK1: 42.00").length / 2))))
    ∧ (2 ≤ (jsLines "Front\nK1: 42.00").length →
        (sectionSplit "Front\nK1: 42.00").1 ≠ "" ∧ (sectionSplit "Front\nK1: 42.00").2 ≠ "") :=
  c8_midpoint_amended "Front\nK1: 42.00" (by decide) (by decide)

theorem c8_midpoint_counterexample :
    frontIdxOf "Front" = 0 ∧ backIdxOf "Front" = -1 ∧
    jsLines "Front" = ["Front"] ∧ sectionSplit "Front" = ("", "Front") :=
  ⟨rfl, rfl, rfl, rfl⟩

/-- C1: on the spec's example text with `requestedFields = "k"`,
`parseCorneaData` returns exactly the six keratometry keys, in insertion
order, with the stated values (`Front_Km`/`Back_Km` fall back to the
sentinel), and no key outside the keratometry group is present. -/
theorem c1_keratometry_filter :
    parseCorneaData kExampleText "k" =
      [("Front_K1", "43.50"), ("Front_K2", "44.20"), ("Front_Km", "-"),
       ("Back_K1", "-6.10"), ("Back_K2", "-6.30"), ("Back_Km", "-")] := rfl

theorem c6_back_radius_counterexample :
    List.lookup "Back_Rh" (parseCorneaData negRadiusText "radius") = some "-" ∧
    (some "-" : Option String) ≠ some "-6.10" := ⟨rfl, by decide⟩

/-- C6 amended: the back-surface Radius fields use the same
`<Label>[:\s]+([0-9.]+)` pattern as the front (no leading minus sign), so a
back value written `Rh: -6.10` yields the sentinel `"-"` while an unsigned
back value is extracted; only the back keratometry patterns admit a leading
minus (as `Back_K1` on the keratometry example shows). -/
theorem c6_back_radius_amended :
    List.lookup "Back_Rh" (parseCorneaData posRadiusText "radius") = some "6.10" ∧
    List.lookup "Back_Rh" (parseCorneaData negRadiusText "radius") = some "-" ∧
    List.lookup "Back_K1" (parseCorneaData kExampleText "k") = some "-6.10" := ⟨rfl, rfl, rfl⟩

/-- C9: the `AC_Depth` field is the sentinel `"-"` whenever the text has no
case-insensitive occurrence of `Depth`; the example `A.C. Depth(Int.): 3.22
mm` yields `"3.22"` and a depth-free text yields `"-"`; and in extract-all
mode the field always equals the spec-worded two-stage
window-then-colon-then-number formula `acDepthSpec`. -/
theorem c9_ac_depth :
    (∀ t : String, reSearch reDepth t.data = none →
       List.lookup "AC_Depth" (parseCorneaData t "") = some "-")
    ∧ List.lookup "AC_Depth"
        (parseCorneaData "foo A.C. Depth(Int.): 3.22 mm bar" "ac") = some "3.22"
    ∧ List.lookup "AC_Depth" (parseCorneaData "hello world" "ac") = some "-"
    ∧ ∀ t : String, List.lookup "AC_Depth" (parseCorneaData t "") = some (acDepthSpec t) := by
  refine ⟨?_, rfl, rfl, fun t => rfl⟩
  intro t h
  have hh : List.lookup "AC_Depth" (parseCorneaData t "") = some (acDepth t) := rfl
  rw [hh]
  unfold acDepth
  rw [h]

theorem c9_ac_depth_witness :
    List.lookup "AC_Depth" (parseCorneaData "hello" "") = some "-" :=
  c9_ac_depth.1 "hello" (by rfl)

/-- C10: for every input text, requesting exactly `"pachy"` populates the
three Pachymetry keys and additionally `AC_Depth` and `Pupil_Dia` — and no
others — because group gating is a substring test and `"pachy"` contains
the substring `"ac"`. -/
theorem c10_pachy_gating : ∀ text : String,
    (parseCorneaData text "pachy").map Prod.fst =
      ["Pachy_Center", "Pachy_Apex", "Pachy_Thinnest", "AC_Depth", "Pupil_Dia"] ∧
    strIncludes "pachy" "ac" = true := fun _ => ⟨rfl, rfl⟩

/-! ### Lemmas for the region-attribution claim (C3) -/

theorem setKV_absent {α : Type} (m : List (String × α)) (k : String) (v : α)
    (h : ∀ p ∈ m, p.1 ≠ k) : setKV m k v = m ++ [(k, v)] := by
  induction m with
  | nil => rfl
  | cons p rest ih =>
    obtain ⟨q, w⟩ := p
    have hq : q ≠ k := h (q, w) (List.mem_cons_self _ _)
    simp only [setKV, if_neg hq]
    rw [ih (fun p hp => h p (List.mem_cons_of_mem _ hp))]
    rfl

theorem initFold_eq (bs : List Boundary) :
    ∀ acc : List (String × List String),
      (∀ b ∈ bs, ∀ p ∈ acc, p.1 ≠ b.id) → (bs.map (fun b => b.id)).Nodup →
      bs.foldl (fun m b => setKV m b.id []) acc = acc ++ bs.map (fun b => (b.id, [])) := by
  induction bs with
  | nil => intro acc _ _; simp
  | cons b rest ih =>
    intro acc hacc hnd
    rw [List.foldl_cons]
    rw [setKV_absent acc b.id [] (fun p hp => hacc b (List.mem_cons_self _ _) p hp)]
    rw [List.map_cons, List.nodup_cons] at hnd
    have hacc2 : ∀ c ∈ rest, ∀ p ∈ acc ++ [(b.id, ([] : List String))], p.1 ≠ c.id := by
      intro c hc p hp
      rcases List.mem_append.mp hp with hp | hp
      · exact hacc c (List.mem_cons_of_mem _ hc) p hp
      · rcases List.mem_singleton.mp hp with rfl
        intro hcontra
        have hbc : b.id = c.id := hcontra
        exact hnd.1 (by rw [hbc]; exact List.mem_map_of_mem (fun q => q.id) hc)
    rw [ih _ hacc2 hnd.2]
    simp

theorem lookup_mapped (bs : List Boundary) (f : Boundary → List String)
    (hn : (bs.map (fun b => b.id)).Nodup) (b0 : Boundary) (hb0 : b0 ∈ bs) :
    List.lookup b0.id (bs.map (fun b => (b.id, f b))) = some (f b0) := by
  induction bs with
  | nil => cases hb0
  | cons c rest ih =>
    rw [List.map_cons, List.nodup_cons] at hn
    rcases List.mem_cons.mp hb0 with rfl | hmem
    · simp [List.lookup]
    · have hne : b0.id ≠ c.id := by
        intro he
        exact hn.1 (by rw [← he]; exact List.mem_map_of_mem (fun q => q.id) hmem)
      have hbeq : (b0.id == c.id) = false := by
        simpa using hne
      simp only [List.map_cons, List.lookup, hbeq]
      exact ih hn.2 hmem

theorem setKV_mapped (bs : List Boundary) (f : Boundary → List String)
    (v : List String) (hn : (bs.map (fun b => b.id)).Nodup) (b0 : Boundary) (hb0 : b0 ∈ bs) :
    setKV (bs.map (fun b => (b.id, f b))) b0.id v =
      bs.map (fun b => (b.id, if b.id = b0.id then v else f b)) := by
  induction bs with
  | nil => cases hb0
  | cons c rest ih =>
    rw [List.map_cons, List.nodup_cons] at hn
    rw [List.map_cons, List.map_cons]
    by_cases hc : c.id = b0.id
    · show setKV ((c.id, f c) :: List.map (fun b => (b.id, f b)) rest) b0.id v =
        (c.id, if c.id = b0.id then v else f c) ::
          List.map (fun b => (b.id, if b.id = b0.id then v else f b)) rest
      unfold setKV
      rw [if_pos hc, if_pos hc, ← hc]
      congr 1
      apply List.map_congr_left
      intro b hb
      have hne : b.id ≠ c.id := by
        intro he
        exact hn.1 (by rw [← he]; exact List.mem_map_of_mem (fun q => q.id) hb)
      rw [if_neg hne]
    · have hb0r : b0 ∈ rest := by
        rcases List.mem_cons.mp hb0 with rfl | h
        · exact absurd rfl hc
        · exact h
      show setKV ((c.id, f c) :: List.map (fun b => (b.id, f b)) rest) b0.id v =
        (c.id, if c.id = b0.id then v else f c) ::
          List.map (fun b => (b.id, if b.id = b0.id then v else f b)) rest
      unfold setKV
      rw [if_neg hc, if_neg hc]
      rw [ih hn.2 hb0r]

theorem nodup_id_inj (bs : List Boundary) (hn : (bs.map (fun b => b.id)).Nodup) :
    ∀ b ∈ bs, ∀ b0 ∈ bs, b.id = b0.id → b = b0 := by
  induction bs with
  | nil => intro b hb; cases hb
  | cons c rest ih =>
    rw [List.map_cons, List.nodup_cons] at hn
    intro b hb b0 hb0 he
    rcases List.mem_cons.mp hb with rfl | hbr
    · rcases List.mem_cons.mp hb0 with rfl | hb0r
      · rfl
      · exact absurd (he ▸ List.mem_map_of_mem (fun q => q.id) hb0r) hn.1
    · rcases List.mem_cons.mp hb0 with rfl | hb0r
      · exact absurd (he ▸ List.mem_map_of_mem (fun q => q.id) hbr) hn.1
      · exact ih hn.2 b hbr b0 hb0r he

theorem regionAssign_some (bs : List Boundary) (blk : TextBlock) (rid : String)
    (h : regionAssign bs blk = some rid) : ∃ b0, b0 ∈ bs ∧ b0.id = rid := by
  unfold regionAssign at h
  split at h
  · cases h
  · split at h
    · cases h
    · obtain ⟨b0, hfind, hid⟩ := Option.map_eq_some'.mp h
      exact ⟨b0, List.mem_of_find?_eq_some hfind, hid⟩

theorem regionTexts_cons (bs : List Boundary) (rid : String) (blk : TextBlock)
    (rest : List TextBlock) :
    regionTexts bs rid (blk :: rest) =
      (if regionAssign bs blk = some rid then [blk.description] else []) ++
        regionTexts bs rid rest := by
  unfold regionTexts
  rw [List.filterMap_cons]
  by_cases h : regionAssign bs blk = some rid
  · rw [if_pos h, if_pos h]
    rfl
  · rw [if_neg h, if_neg h]
    rfl

theorem regionFold_inv (bs : List Boundary) (hn : (bs.map (fun b => b.id)).Nodup) :
    ∀ (blocks : List TextBlock) (f : Boundary → List String),
      List.foldl (regionStep bs) (bs.map (fun b => (b.id, f b))) blocks =
        bs.map (fun b => (b.id, f b ++ regionTexts bs b.id blocks)) := by
  intro blocks
  induction blocks with
  | nil =>
    intro f
    simp [regionTexts]
  | cons blk rest ih =>
    intro f
    rw [List.foldl_cons]
    cases hassign : regionAssign bs blk with
    | none =>
      have hstep : regionStep bs (bs.map (fun b => (b.id, f b))) blk =
          bs.map (fun b => (b.id, f b)) := by
        unfold regionStep
        rw [hassign]
      rw [hstep, ih f]
      apply List.map_congr_left
      intro b _
      rw [regionTexts_cons, hassign]
      simp
    | some rid =>
      obtain ⟨b0, hb0, rfl⟩ := regionAssign_some bs blk rid hassign
      have hstep : regionStep bs (bs.map (fun b => (b.id, f b))) blk =
          setKV (bs.map (fun b => (b.id, f b))) b0.id
            (((List.lookup b0.id (bs.map (fun b => (b.id, f b)))).getD []) ++
              [blk.description]) := by
        unfold regionStep
        rw [hassign]
      rw [hstep, lookup_mapped bs f hn b0 hb0]
      simp only [Option.getD_some]
      rw [setKV_mapped bs f (f b0 ++ [blk.description]) hn b0 hb0]
      rw [ih (fun b => if b.id = b0.id then f b0 ++ [blk.description] else f b)]
      apply List.map_congr_left
      intro b hb
      rw [regionTexts_cons, hassign]
      by_cases hid : b.id = b0.id
      · have hbb0 : b = b0 := nodup_id_inj bs hn b hb b0 hb0 hid
        rw [if_pos hid, if_pos (by rw [hid]), hbb0]
        simp
      · rw [if_neg hid, if_neg (fun hcontra => hid (Option.some.inj hcontra).symm)]
        simp

/-- C3: with distinct region ids (true by construction, the ids are UUIDs),
`parseRegionResults` maps every layout id, in layout order, to the
rendered texts of exactly the blocks whose bounding-box mean x lies in that
id's range (first containing range wins; blocks in gaps or outside all
ranges, or without a bounding box, contribute to no region); rendering
joins with single spaces, collapses whitespace runs, trims, and yields the
sentinel `"-"` when empty. -/
theorem c3_region_attribution (blocks : List TextBlock) (bs : List Boundary)
    (hn : (bs.map (fun b => b.id)).Nodup) :
    parseRegionResults blocks bs =
      bs.map (fun b => (b.id, renderTexts (regionTexts bs b.id blocks))) := by
  simp only [parseRegionResults]
  rw [initFold_eq bs [] (by intro b _ p hp; cases hp) hn]
  rw [List.nil_append]
  rw [regionFold_inv bs hn blocks (fun _ => [])]
  rw [List.map_map]
  apply List.map_congr_left
  intro b _
  simp

theorem c3_region_attribution_witness :
    parseRegionResults regionBlocksEx twoBounds =
      twoBounds.map (fun b => (b.id, renderTexts (regionTexts twoBounds b.id regionBlocksEx))) :=
  c3_region_attribution regionBlocksEx twoBounds (by decide)
